import Mathlib

/-!
Verification development for a solar performance-ratio (PR) analysis
pipeline.  The pipeline merges per-date PR and GHI measurements from two
file trees into a single date-keyed table (preprocess_data in script.py)
and renders summary statistics against a geometrically decaying budget
curve (generate_graph in script.py).  The definitions below are shallow
embeddings of those functions; the theorems establish or refute the
documented properties.
-/

/-- Calendar date given by year, month and day, modelling the components
of a pandas Timestamp. -/
structure Civil where
  y : Int
  m : Nat
  d : Nat
deriving DecidableEq

/-- Calendar order on dates: lexicographic on (year, month, day), the
order pandas uses to compare Timestamps. -/
def civilLe (a b : Civil) : Prop :=
  a.y < b.y ∨ (a.y = b.y ∧ (a.m < b.m ∨ (a.m = b.m ∧ a.d ≤ b.d)))

instance (a b : Civil) : Decidable (civilLe a b) :=
  inferInstanceAs
    (Decidable (a.y < b.y ∨ (a.y = b.y ∧ (a.m < b.m ∨ (a.m = b.m ∧ a.d ≤ b.d)))))

/-- Day number of a civil date (days since 1970-01-01) by the standard
civil-calendar algorithm; models the `.days` count of a pandas Timestamp
subtraction.  Valid for years ≥ 1 and months 1..12. -/
def daysFromCivil (y m d : Nat) : Int :=
  let yy := if m ≤ 2 then y - 1 else y
  let era := yy / 400
  let yoe := yy - era * 400
  let mp := if 2 < m then m - 3 else m + 9
  let doy := (153 * mp + 2) / 5 + d - 1
  let doe := yoe * 365 + yoe / 4 - yoe / 100 + doy
  (era * 146097 + doe : Int) - 719468

/-- Shallow embedding of calculate_budget_pr (script.py lines 147-153):
for an elapsed day count since the budget start date, the budget PR is
initial_budget * (1 - annual_reduction) ^ (days / 365.25) with
initial_budget 73.9 and annual_reduction 0.008. -/
noncomputable def calculate_budget_pr (days : Int) : ℝ :=
  73.9 * ((1 : ℝ) - 0.008) ^ ((days : ℝ) / 365.25)

/-- One fold step of the minimum of a date column; none models pandas
NaT. -/
def minDateStep (acc : Option Civil) (c : Civil) : Option Civil :=
  match acc with
  | none => some c
  | some a => if civilLe c a then some c else some a

/-- Models df_plot['Date'].min() (script.py line 136): NaT (none) on an
empty column, otherwise the least date. -/
def minDate (dates : List Civil) : Option Civil :=
  dates.foldl minDateStep none

/-- Models script.py lines 140-143: ref_year = first_date.year if
first_date.month >= 7 else first_date.year - 1.  When the table is
empty, first_date is NaT, NaT.month is nan, the comparison nan >= 7 is
False and nan - 1 is nan, so ref_year is nan (modelled as none). -/
def refYearOf (firstDate : Option Civil) : Option Int :=
  match firstDate with
  | none => none
  | some c => some (if 7 ≤ c.m then c.y else c.y - 1)

/-- Models pd.Timestamp of the interpolated string '{ref_year}-07-01'
(script.py line 145): a nan ref_year yields the unparseable string
'nan-07-01' and pandas raises ValueError; otherwise July 1 of
ref_year. -/
def budgetStartOf (refYear : Option Int) : Except String Civil :=
  match refYear with
  | none => Except.error "ValueError: could not parse Timestamp nan-07-01"
  | some yy => Except.ok (Civil.mk yy 7 1)

/-- Helper: the budget value at an integer day offset N never equals
73.9 * 0.992 exactly, because the exponent N / 365.25 would have to be
exactly 1, impossible for integer N. -/
theorem budget_ne_of_int_days (N : Int) :
    calculate_budget_pr N ≠ 73.9 * 0.992 := by
  unfold calculate_budget_pr
  have hb : ((1 : ℝ) - 0.008) = 0.992 := by norm_num
  rw [hb]
  have hN : ((N : ℝ)) ≠ 365.25 := by
    intro h
    have h4 : ((4 * N : Int) : ℝ) = 1461 := by push_cast; linarith
    have h5 : (4 * N : Int) = 1461 := by exact_mod_cast h4
    omega
  have he : (N : ℝ) / 365.25 ≠ 1 := by
    intro h
    apply hN
    have h1 : (N : ℝ) = 1 * 365.25 := by
      rw [← h]
      field_simp
    linarith
  rcases lt_or_gt_of_ne he with h | h
  · have h2 : (0.992 : ℝ) ^ (1 : ℝ) < (0.992 : ℝ) ^ ((N : ℝ) / 365.25) :=
      Real.rpow_lt_rpow_of_exponent_gt (by norm_num) (by norm_num) h
    rw [Real.rpow_one] at h2
    have h3 : 73.9 * (0.992 : ℝ) < 73.9 * (0.992 : ℝ) ^ ((N : ℝ) / 365.25) :=
      (mul_lt_mul_left (by norm_num)).mpr h2
    exact (ne_of_lt h3).symm
  · have h2 : (0.992 : ℝ) ^ ((N : ℝ) / 365.25) < (0.992 : ℝ) ^ (1 : ℝ) :=
      Real.rpow_lt_rpow_of_exponent_gt (by norm_num) (by norm_num) h
    rw [Real.rpow_one] at h2
    have h3 : 73.9 * (0.992 : ℝ) ^ ((N : ℝ) / 365.25) < 73.9 * (0.992 : ℝ) :=
      (mul_lt_mul_left (by norm_num)).mpr h2
    exact ne_of_lt h3

/-- Helper: the budget value at the epoch itself is exactly 73.9. -/
theorem budget_at_epoch : calculate_budget_pr 0 = 73.9 := by
  unfold calculate_budget_pr
  rw [show ((0 : Int) : ℝ) = 0 from by norm_num]
  rw [zero_div, Real.rpow_zero, mul_one]

/-- C1 counterexample: with budget start date 2023-07-01, the date
exactly one year later (2024-07-01) lies 366 days after the epoch, and
the budget value there is not exactly 73.9 * 0.992, because the exponent
366 / 365.25 is not exactly 1. -/
theorem C1_budget_one_year_not_exact :
    daysFromCivil 2024 7 1 - daysFromCivil 2023 7 1 = 366 ∧
    calculate_budget_pr (daysFromCivil 2024 7 1 - daysFromCivil 2023 7 1) ≠
      73.9 * 0.992 := by
  have hd : daysFromCivil 2024 7 1 - daysFromCivil 2023 7 1 = 366 := by decide
  refine ⟨hd, ?_⟩
  rw [hd]
  exact budget_ne_of_int_days 366

/-- C1 amended: budget(epoch) is exactly 73.9; the date one year after a
July 1 epoch lies an integer number N of days later (365 or 366), where
the budget equals 73.9 * 0.992 ^ (N / 365.25); since N / 365.25 is never
exactly 1 for an integer N, this value is never exactly 73.9 * 0.992. -/
theorem C1_budget_amended (y : Nat) :
    calculate_budget_pr 0 = 73.9 ∧
    calculate_budget_pr (daysFromCivil (y + 1) 7 1 - daysFromCivil y 7 1) =
      73.9 * (0.992 : ℝ) ^
        (((daysFromCivil (y + 1) 7 1 - daysFromCivil y 7 1 : Int) : ℝ) / 365.25) ∧
    calculate_budget_pr (daysFromCivil (y + 1) 7 1 - daysFromCivil y 7 1) ≠
      73.9 * 0.992 := by
  refine ⟨budget_at_epoch, ?_, budget_ne_of_int_days _⟩
  unfold calculate_budget_pr
  norm_num

/-- C2: on an empty merged table the render stage raises rather than
degrading to NaN: the first-date minimum is NaT, the reference-year
computation propagates nan, and constructing the budget start timestamp
from the string 'nan-07-01' raises ValueError. -/
theorem C2_empty_table_raises :
    budgetStartOf (refYearOf (minDate [])) =
      Except.error "ValueError: could not parse Timestamp nan-07-01" := rfl

/-- C5: for a non-empty dataset whose least date is c, the computed
reference year ry satisfies: July 1 of ry is at or before c, every July 1
at or before c has year at most ry (so the epoch is the most recent such
July 1), the epoch timestamp parses without error, and the budget value
is defined and positive at every integer day offset, before or after the
epoch. -/
theorem C5_epoch_selection (dates : List Civil) (c : Civil)
    (hmin : minDate dates = some c) (hd : 1 ≤ c.d) :
    ∃ ry : Int,
      refYearOf (minDate dates) = some ry ∧
      budgetStartOf (refYearOf (minDate dates)) = Except.ok (Civil.mk ry 7 1) ∧
      civilLe (Civil.mk ry 7 1) c ∧
      (∀ z : Int, civilLe (Civil.mk z 7 1) c → z ≤ ry) ∧
      (∀ k : Int, 0 < calculate_budget_pr k) := by
  refine ⟨if 7 ≤ c.m then c.y else c.y - 1, ?_, ?_, ?_, ?_, ?_⟩
  · rw [hmin]
    rfl
  · rw [hmin]
    rfl
  · unfold civilLe
    dsimp only
    split_ifs with h <;> omega
  · intro z hz
    unfold civilLe at hz
    dsimp only at hz
    split_ifs with h <;> omega
  · intro k
    unfold calculate_budget_pr
    have hpos : (0 : ℝ) < (1 : ℝ) - 0.008 := by norm_num
    exact mul_pos (by norm_num) (Real.rpow_pos_of_pos hpos _)

/-- C5 witness at a concrete one-element dataset whose least date is
2024-05-15 (month before July, so the epoch year is 2023). -/
theorem C5_epoch_selection_witness :
    minDate [Civil.mk 2024 5 15] = some (Civil.mk 2024 5 15) ∧
    1 ≤ (Civil.mk 2024 5 15).d ∧
    ∃ ry : Int,
      refYearOf (minDate [Civil.mk 2024 5 15]) = some ry ∧
      budgetStartOf (refYearOf (minDate [Civil.mk 2024 5 15])) =
        Except.ok (Civil.mk ry 7 1) ∧
      civilLe (Civil.mk ry 7 1) (Civil.mk 2024 5 15) ∧
      (∀ z : Int, civilLe (Civil.mk z 7 1) (Civil.mk 2024 5 15) → z ≤ ry) ∧
      (∀ k : Int, 0 < calculate_budget_pr k) :=
  ⟨rfl, by decide,
    C5_epoch_selection [Civil.mk 2024 5 15] (Civil.mk 2024 5 15) rfl (by decide)⟩

/-! ## Merge stage (preprocess_data, script.py lines 9-91) -/

/-- Calendar date key of the merge stage, abstracted as a day number. -/
abbrev Date := Nat

/-- One record of the merged table: optional PR and optional GHI, with
missing cells (pandas NaN / None) modelled as none. -/
structure DateRecord where
  pr : Option ℚ
  ghi : Option ℚ
deriving DecidableEq

/-- One CSV row: a date and the cell of the file's value column (PR or
GHI), which may be missing (NaN). -/
structure Row where
  date : Date
  value : Option ℚ
deriving DecidableEq

/-- A source file: its path (abstracted as a sort key) and its parsed
rows. -/
abbrev PFile := Nat × List Row

/-- The Python data_dict: an insertion-ordered association list from
date to record, modelling a Python dict. -/
abbrev DataDict := List (Date × DateRecord)

/-- Models script.py lines 37-42 for one PR row: if the date is not yet
a key of data_dict, insert a fresh record with both cells missing; then
set the record's PR cell to the row's value.  A Python dict update keeps
the position of an existing key and appends new keys at the end. -/
def setPR : DataDict → Date → Option ℚ → DataDict
  | [], d, v => [(d, DateRecord.mk v none)]
  | p :: rest, d, v =>
      if p.1 = d then (p.1, DateRecord.mk v p.2.ghi) :: rest
      else p :: setPR rest d v

/-- Models script.py lines 59-64 for one GHI row, symmetric to setPR. -/
def setGHI : DataDict → Date → Option ℚ → DataDict
  | [], d, v => [(d, DateRecord.mk none v)]
  | p :: rest, d, v =>
      if p.1 = d then (p.1, DateRecord.mk p.2.pr v) :: rest
      else p :: setGHI rest d v

/-- Fold of the PR row loop (script.py lines 37-42) over a row list. -/
def prPhase (st : DataDict) (rows : List Row) : DataDict :=
  rows.foldl (fun s r => setPR s r.date r.value) st

/-- Fold of the GHI row loop (script.py lines 59-64) over a row list. -/
def ghiPhase (st : DataDict) (rows : List Row) : DataDict :=
  rows.foldl (fun s r => setGHI s r.date r.value) st

/-- Path order on files, modelling sorted() over pathlib paths. -/
def fileLe (a b : PFile) : Prop := a.1 ≤ b.1

instance : DecidableRel fileLe := fun a b => Nat.decLe a.1 b.1

/-- Models sorted(pr_path.rglob(...)) and sorted(ghi_path.rglob(...))
(script.py lines 28 and 50). -/
def sortFiles (files : List PFile) : List PFile :=
  List.insertionSort fileLe files

/-- Concatenated rows of a list of files, in file order. -/
def rowsOf : List PFile → List Row
  | [] => []
  | f :: fs => f.2 ++ rowsOf fs

/-- Date order on merged records, used by df.sort_values('Date')
(script.py line 71); over the distinct keys of a dict, any correct
ascending sort yields the same list. -/
def dateLe (a b : Date × DateRecord) : Prop := a.1 ≤ b.1

instance : DecidableRel dateLe := fun a b => Nat.decLe a.1 b.1

/-- Shallow embedding of preprocess_data (script.py lines 9-91): fold
all PR rows of the path-sorted PR files into the empty dict, then all
GHI rows of the path-sorted GHI files, then sort the records by date. -/
def preprocess_data (prFiles ghiFiles : List PFile) : DataDict :=
  List.insertionSort dateLe
    (ghiPhase (prPhase [] (rowsOf (sortFiles prFiles)))
      (rowsOf (sortFiles ghiFiles)))

/-- Lookup of a date key in the dict, returning its record. -/
def lookupD (d : Date) : DataDict → Option DateRecord
  | [] => none
  | p :: rest => if p.1 = d then some p.2 else lookupD d rest

/-- PR cell of an optional record. -/
def prOf : Option DateRecord → Option ℚ
  | none => none
  | some r => r.pr

/-- GHI cell of an optional record. -/
def ghiOf : Option DateRecord → Option ℚ
  | none => none
  | some r => r.ghi

/-- Keys of the dict in insertion order. -/
def keysOf (st : DataDict) : List Date := st.map Prod.fst

/-- Dates mentioned by a list of rows. -/
def datesOf (rows : List Row) : List Date := rows.map Row.date

/-- Last value cell written for a date by a list of rows; none when no
row mentions the date or the last such row's cell is missing. -/
def lastWritten (rows : List Row) (d : Date) : Option ℚ :=
  (((rows.filter (fun r => r.date == d)).map Row.value).getLast?).getD none

/-- Number of records of a table carrying a given date. -/
def countDate (st : DataDict) (d : Date) : Nat :=
  (st.filter (fun p => p.1 == d)).length

theorem lookupD_setPR (st : DataDict) (e : Date) (v : Option ℚ) (d : Date) :
    lookupD d (setPR st e v) =
      if e = d then some (DateRecord.mk v (ghiOf (lookupD d st)))
      else lookupD d st := by
  induction st with
  | nil => by_cases h : e = d <;> simp [setPR, lookupD, ghiOf, h]
  | cons p rest ih =>
      by_cases hp : p.1 = e
      · by_cases hd : p.1 = d
        · have he : e = d := hp.symm.trans hd
          simp [setPR, lookupD, ghiOf, hp, hd, he]
        · have he : ¬e = d := fun h => hd (hp.trans h)
          simp [setPR, lookupD, ghiOf, hp, hd, he]
      · by_cases hd : p.1 = d
        · have he : ¬e = d := fun h => hp (hd.trans h.symm)
          have hde : ¬d = e := fun h => he h.symm
          simp [setPR, lookupD, ghiOf, hp, hd, he, hde]
        · simp [setPR, lookupD, hp, hd, ih]

theorem keysOf_nil : keysOf [] = [] := rfl

theorem keysOf_cons (p : Date × DateRecord) (st : DataDict) :
    keysOf (p :: st) = p.1 :: keysOf st := rfl

theorem keysOf_setPR (st : DataDict) (e : Date) (v : Option ℚ) :
    keysOf (setPR st e v) =
      if e ∈ keysOf st then keysOf st else keysOf st ++ [e] := by
  induction st with
  | nil => simp [setPR, keysOf]
  | cons p rest ih =>
      by_cases hp : p.1 = e
      · simp [setPR, keysOf_cons, hp]
      · have hpe : ¬e = p.1 := fun h => hp h.symm
        by_cases hm : e ∈ keysOf rest <;>
          simp [setPR, keysOf_cons, hp, hpe, hm, ih]

theorem keysOf_setGHI (st : DataDict) (e : Date) (v : Option ℚ) :
    keysOf (setGHI st e v) =
      if e ∈ keysOf st then keysOf st else keysOf st ++ [e] := by
  induction st with
  | nil => simp [setGHI, keysOf]
  | cons p rest ih =>
      by_cases hp : p.1 = e
      · simp [setGHI, keysOf_cons, hp]
      · have hpe : ¬e = p.1 := fun h => hp h.symm
        by_cases hm : e ∈ keysOf rest <;>
          simp [setGHI, keysOf_cons, hp, hpe, hm, ih]

theorem keysNodup_setPR (st : DataDict) (e : Date) (v : Option ℚ)
    (h : (keysOf st).Nodup) : (keysOf (setPR st e v)).Nodup := by
  rw [keysOf_setPR]
  split_ifs with hm
  · exact h
  · simp [List.nodup_append, h, hm]

theorem keysNodup_setGHI (st : DataDict) (e : Date) (v : Option ℚ)
    (h : (keysOf st).Nodup) : (keysOf (setGHI st e v)).Nodup := by
  rw [keysOf_setGHI]
  split_ifs with hm
  · exact h
  · simp [List.nodup_append, h, hm]

theorem keysNodup_prPhase (rows : List Row) :
    ∀ st : DataDict, (keysOf st).Nodup → (keysOf (prPhase st rows)).Nodup := by
  induction rows with
  | nil => intro st h; exact h
  | cons r rs ih => intro st h; exact ih _ (keysNodup_setPR st r.date r.value h)

theorem keysNodup_ghiPhase (rows : List Row) :
    ∀ st : DataDict, (keysOf st).Nodup → (keysOf (ghiPhase st rows)).Nodup := by
  induction rows with
  | nil => intro st h; exact h
  | cons r rs ih => intro st h; exact ih _ (keysNodup_setGHI st r.date r.value h)

theorem getLast?_append_single {α : Type} (l : List α) (a : α) :
    (l ++ [a]).getLast? = some a := by
  induction l with
  | nil => rfl
  | cons x xs ih =>
      rw [List.cons_append]
      cases hxs : xs ++ [a] with
      | nil => exact absurd hxs (by simp)
      | cons y ys => rw [List.getLast?_cons_cons, ← hxs, ih]

theorem lookupD_setGHI (st : DataDict) (e : Date) (v : Option ℚ) (d : Date) :
    lookupD d (setGHI st e v) =
      if e = d then some (DateRecord.mk (prOf (lookupD d st)) v)
      else lookupD d st := by
  induction st with
  | nil => by_cases h : e = d <;> simp [setGHI, lookupD, prOf, h]
  | cons p rest ih =>
      by_cases hp : p.1 = e
      · by_cases hd : p.1 = d
        · have he : e = d := hp.symm.trans hd
          simp [setGHI, lookupD, prOf, hp, hd, he]
        · have he : ¬e = d := fun h => hd (hp.trans h)
          simp [setGHI, lookupD, prOf, hp, hd, he]
      · by_cases hd : p.1 = d
        · have he : ¬e = d := fun h => hp (hd.trans h.symm)
          have hde : ¬d = e := fun h => he h.symm
          simp [setGHI, lookupD, prOf, hp, hd, he, hde]
        · simp [setGHI, lookupD, hp, hd, ih]

theorem lastWritten_append_single (rows : List Row) (r : Row) (d : Date) :
    lastWritten (rows ++ [r]) d =
      if r.date = d then r.value else lastWritten rows d := by
  unfold lastWritten
  rw [List.filter_append]
  by_cases h : r.date = d
  · simp [h, getLast?_append_single]
  · simp [h]

theorem lastWritten_of_not_mem (rows : List Row) (d : Date)
    (h : d ∉ datesOf rows) : lastWritten rows d = none := by
  unfold lastWritten
  have hf : rows.filter (fun r => r.date == d) = [] := by
    rw [List.filter_eq_nil_iff]
    intro a ha
    simp only [beq_iff_eq]
    intro had
    exact h (List.mem_map.mpr ⟨a, ha, had⟩)
  rw [hf]
  rfl

theorem mem_datesOf_append (rs : List Row) (r : Row) (d : Date) :
    d ∈ datesOf (rs ++ [r]) ↔ d ∈ datesOf rs ∨ r.date = d := by
  unfold datesOf
  rw [List.map_append]
  simp [eq_comm]

theorem lookupD_prPhase (rows : List Row) (st : DataDict) (d : Date) :
    lookupD d (prPhase st rows) =
      if d ∈ datesOf rows
      then some (DateRecord.mk (lastWritten rows d) (ghiOf (lookupD d st)))
      else lookupD d st := by
  induction rows using List.reverseRecOn with
  | nil => simp [prPhase, datesOf]
  | append_singleton rs r ih =>
      have hsplit : prPhase st (rs ++ [r]) = setPR (prPhase st rs) r.date r.value := by
        unfold prPhase
        rw [List.foldl_append]
        rfl
      rw [hsplit, lookupD_setPR, ih, lastWritten_append_single]
      by_cases hr : r.date = d
      · rw [if_pos hr, if_pos hr,
          if_pos ((mem_datesOf_append rs r d).mpr (Or.inr hr))]
        by_cases hm : d ∈ datesOf rs
        · rw [if_pos hm]
          simp [ghiOf]
        · rw [if_neg hm]
      · rw [if_neg hr, if_neg hr]
        have hiff : d ∈ datesOf (rs ++ [r]) ↔ d ∈ datesOf rs := by
          rw [mem_datesOf_append]
          simp [hr]
        by_cases hm : d ∈ datesOf rs
        · rw [if_pos hm, if_pos (hiff.mpr hm)]
        · rw [if_neg hm, if_neg (fun hh => hm (hiff.mp hh))]

theorem lookupD_ghiPhase (rows : List Row) (st : DataDict) (d : Date) :
    lookupD d (ghiPhase st rows) =
      if d ∈ datesOf rows
      then some (DateRecord.mk (prOf (lookupD d st)) (lastWritten rows d))
      else lookupD d st := by
  induction rows using List.reverseRecOn with
  | nil => simp [ghiPhase, datesOf]
  | append_singleton rs r ih =>
      have hsplit : ghiPhase st (rs ++ [r]) = setGHI (ghiPhase st rs) r.date r.value := by
        unfold ghiPhase
        rw [List.foldl_append]
        rfl
      rw [hsplit, lookupD_setGHI, ih, lastWritten_append_single]
      by_cases hr : r.date = d
      · rw [if_pos hr, if_pos hr,
          if_pos ((mem_datesOf_append rs r d).mpr (Or.inr hr))]
        by_cases hm : d ∈ datesOf rs
        · rw [if_pos hm]
          simp [prOf]
        · rw [if_neg hm]
      · rw [if_neg hr, if_neg hr]
        have hiff : d ∈ datesOf (rs ++ [r]) ↔ d ∈ datesOf rs := by
          rw [mem_datesOf_append]
          simp [hr]
        by_cases hm : d ∈ datesOf rs
        · rw [if_pos hm, if_pos (hiff.mpr hm)]
        · rw [if_neg hm, if_neg (fun hh => hm (hiff.mp hh))]

theorem lookupD_merged (prRows ghiRows : List Row) (d : Date) :
    lookupD d (ghiPhase (prPhase [] prRows) ghiRows) =
      if d ∈ datesOf prRows ∨ d ∈ datesOf ghiRows
      then some (DateRecord.mk (lastWritten prRows d) (lastWritten ghiRows d))
      else none := by
  rw [lookupD_ghiPhase, lookupD_prPhase]
  by_cases hg : d ∈ datesOf ghiRows <;> by_cases hp : d ∈ datesOf prRows
  · simp [hg, hp, prOf, ghiOf, lookupD]
  · rw [lastWritten_of_not_mem prRows d hp]
    simp [hg, hp, prOf, ghiOf, lookupD]
  · rw [lastWritten_of_not_mem ghiRows d hg]
    simp [hg, hp, prOf, ghiOf, lookupD]
  · simp [hg, hp, lookupD]

theorem countDate_eq_zero (st : DataDict) (d : Date) (h : d ∉ keysOf st) :
    countDate st d = 0 := by
  induction st with
  | nil => rfl
  | cons p rest ih =>
      have h1 : ¬p.1 = d := by
        intro hh
        exact h (by rw [keysOf_cons, hh]; exact List.mem_cons_self d _)
      have h2 : d ∉ keysOf rest := by
        intro hh
        exact h (by rw [keysOf_cons]; exact List.mem_cons_of_mem _ hh)
      have h0 : (rest.filter (fun p => p.1 == d)).length = 0 := ih h2
      simp [countDate, List.filter_cons, h1, h0]

theorem countDate_of_nodup (st : DataDict) (d : Date)
    (h : (keysOf st).Nodup) :
    countDate st d = if (lookupD d st).isSome then 1 else 0 := by
  induction st with
  | nil => rfl
  | cons p rest ih =>
      rw [keysOf_cons] at h
      have h1 : p.1 ∉ keysOf rest := (List.nodup_cons.mp h).1
      have h2 : (keysOf rest).Nodup := (List.nodup_cons.mp h).2
      by_cases hd : p.1 = d
      · have h0 : (rest.filter (fun q => q.1 == d)).length = 0 :=
          countDate_eq_zero rest d (hd ▸ h1)
        simp [countDate, lookupD, List.filter_cons, hd, h0]
      · have h0 := ih h2
        simp only [countDate, List.filter_cons] at h0 ⊢
        simp [lookupD, hd, h0]

theorem lookupD_eq_some_of_mem (st : DataDict) (d : Date) (r : DateRecord)
    (h : (keysOf st).Nodup) (hm : (d, r) ∈ st) : lookupD d st = some r := by
  induction st with
  | nil => cases hm
  | cons p rest ih =>
      rw [keysOf_cons] at h
      have h1 : p.1 ∉ keysOf rest := (List.nodup_cons.mp h).1
      have h2 : (keysOf rest).Nodup := (List.nodup_cons.mp h).2
      rcases List.mem_cons.mp hm with he | he
      · rw [← he]
        simp [lookupD]
      · have hne : ¬p.1 = d := by
          intro hh
          apply h1
          rw [hh]
          exact List.mem_map.mpr ⟨(d, r), he, rfl⟩
        simp [lookupD, hne, ih h2 he]

theorem mem_of_lookupD_eq_some (st : DataDict) (d : Date) (r : DateRecord)
    (h : lookupD d st = some r) : (d, r) ∈ st := by
  induction st with
  | nil => simp [lookupD] at h
  | cons p rest ih =>
      by_cases hd : p.1 = d
      · simp [lookupD, hd] at h
        exact List.mem_cons.mpr (Or.inl (by rw [← hd, ← h]))
      · simp [lookupD, hd] at h
        exact List.mem_cons.mpr (Or.inr (ih h))

instance : IsTotal (Date × DateRecord) dateLe := ⟨fun a b => Nat.le_total a.1 b.1⟩

instance : IsTrans (Date × DateRecord) dateLe :=
  ⟨fun _ _ _ hab hbc => Nat.le_trans hab hbc⟩

instance : IsTotal PFile fileLe := ⟨fun a b => Nat.le_total a.1 b.1⟩

instance : IsTrans PFile fileLe := ⟨fun _ _ _ hab hbc => Nat.le_trans hab hbc⟩

/-- Strict path order on files, used to show a sort of distinct paths is
unique. -/
def fileLt (a b : PFile) : Prop := a.1 < b.1

instance : IsAntisymm PFile fileLt :=
  ⟨fun _ _ h1 h2 => absurd h2 (Nat.lt_asymm h1)⟩

/-- C3: for every pair of input file sets and every date, that date is
present in some source row exactly when the merged table carries exactly
one record for it, and any record of the merged table for that date has
PR cell equal to the last PR value written for the date over the
path-sorted PR files and GHI cell equal to the last GHI value written
over the path-sorted GHI files (absent when no row supplies it). -/
theorem C3_merged_record_spec (prFiles ghiFiles : List PFile) (d : Date) :
    ((d ∈ datesOf (rowsOf (sortFiles prFiles)) ∨
        d ∈ datesOf (rowsOf (sortFiles ghiFiles))) ↔
      countDate (preprocess_data prFiles ghiFiles) d = 1) ∧
    ∀ r : DateRecord, (d, r) ∈ preprocess_data prFiles ghiFiles →
      r.pr = lastWritten (rowsOf (sortFiles prFiles)) d ∧
      r.ghi = lastWritten (rowsOf (sortFiles ghiFiles)) d := by
  have hnodup : (keysOf (ghiPhase (prPhase [] (rowsOf (sortFiles prFiles)))
      (rowsOf (sortFiles ghiFiles)))).Nodup :=
    keysNodup_ghiPhase _ _ (keysNodup_prPhase _ _ List.nodup_nil)
  have hperm : List.Perm (preprocess_data prFiles ghiFiles)
      (ghiPhase (prPhase [] (rowsOf (sortFiles prFiles)))
        (rowsOf (sortFiles ghiFiles))) :=
    List.perm_insertionSort dateLe _
  have hcount : countDate (preprocess_data prFiles ghiFiles) d =
      countDate (ghiPhase (prPhase [] (rowsOf (sortFiles prFiles)))
        (rowsOf (sortFiles ghiFiles))) d :=
    (hperm.filter _).length_eq
  have hlook := lookupD_merged (rowsOf (sortFiles prFiles))
    (rowsOf (sortFiles ghiFiles)) d
  have hcnt2 := countDate_of_nodup _ d hnodup
  constructor
  · rw [hcount, hcnt2, hlook]
    by_cases hin : d ∈ datesOf (rowsOf (sortFiles prFiles)) ∨
        d ∈ datesOf (rowsOf (sortFiles ghiFiles))
    · simp [hin]
    · simp [hin]
  · intro r hr
    have hmem : (d, r) ∈ ghiPhase (prPhase [] (rowsOf (sortFiles prFiles)))
        (rowsOf (sortFiles ghiFiles)) := hperm.mem_iff.mp hr
    have hsome := lookupD_eq_some_of_mem _ d r hnodup hmem
    rw [hlook] at hsome
    by_cases hin : d ∈ datesOf (rowsOf (sortFiles prFiles)) ∨
        d ∈ datesOf (rowsOf (sortFiles ghiFiles))
    · rw [if_pos hin] at hsome
      simp only [Option.some.injEq] at hsome
      subst hsome
      exact ⟨rfl, rfl⟩
    · rw [if_neg hin] at hsome
      exact Option.noConfusion hsome

/-- C3 witness: one PR file with a single row for date 5 and no GHI
files. -/
theorem C3_merged_record_spec_witness :
    ((5 ∈ datesOf (rowsOf (sortFiles [(1, [Row.mk 5 (some 80)])])) ∨
        5 ∈ datesOf (rowsOf (sortFiles ([] : List PFile)))) ↔
      countDate (preprocess_data [(1, [Row.mk 5 (some 80)])] []) 5 = 1) ∧
    ∀ r : DateRecord, (5, r) ∈ preprocess_data [(1, [Row.mk 5 (some 80)])] [] →
      r.pr = lastWritten (rowsOf (sortFiles [(1, [Row.mk 5 (some 80)])])) 5 ∧
      r.ghi = lastWritten (rowsOf (sortFiles ([] : List PFile))) 5 :=
  C3_merged_record_spec [(1, [Row.mk 5 (some 80)])] [] 5

/-- C4: the dates of the merged table are strictly ascending, hence
contain no duplicates. -/
theorem C4_merged_dates_strictly_ascending (prFiles ghiFiles : List PFile) :
    ((preprocess_data prFiles ghiFiles).map Prod.fst).Pairwise (· < ·) ∧
    ((preprocess_data prFiles ghiFiles).map Prod.fst).Nodup := by
  have hnodup2 : (keysOf (ghiPhase (prPhase [] (rowsOf (sortFiles prFiles)))
      (rowsOf (sortFiles ghiFiles)))).Nodup :=
    keysNodup_ghiPhase _ _ (keysNodup_prPhase _ _ List.nodup_nil)
  have hperm : List.Perm (preprocess_data prFiles ghiFiles)
      (ghiPhase (prPhase [] (rowsOf (sortFiles prFiles)))
        (rowsOf (sortFiles ghiFiles))) :=
    List.perm_insertionSort dateLe _
  have hsorted : List.Sorted dateLe (preprocess_data prFiles ghiFiles) :=
    List.sorted_insertionSort dateLe _
  have hnodup : ((preprocess_data prFiles ghiFiles).map Prod.fst).Nodup :=
    ((hperm.map Prod.fst).nodup_iff).mpr hnodup2
  have hpair_le : (preprocess_data prFiles ghiFiles).Pairwise dateLe := hsorted
  have hpair_ne : (preprocess_data prFiles ghiFiles).Pairwise
      (fun a b => a.1 ≠ b.1) := List.pairwise_map.mp hnodup
  have hlt : (preprocess_data prFiles ghiFiles).Pairwise
      (fun a b => a.1 < b.1) :=
    (hpair_le.and hpair_ne).imp (fun h => Nat.lt_of_le_of_ne h.1 h.2)
  exact ⟨List.pairwise_map.mpr hlt, hnodup⟩

/-- Helper: a path-sorted file list with pairwise-distinct paths is
strictly sorted by path. -/
theorem sorted_fileLt_of_nodup (l : List PFile) (hs : List.Sorted fileLe l)
    (hn : (l.map Prod.fst).Nodup) : List.Sorted fileLt l := by
  have hne : l.Pairwise (fun a b => a.1 ≠ b.1) := List.pairwise_map.mp hn
  have hle : l.Pairwise fileLe := hs
  exact (hle.and hne).imp (fun h => Nat.lt_of_le_of_ne h.1 h.2)

/-- Helper: sorting file lists that are permutations of each other with
pairwise-distinct paths gives identical results. -/
theorem sortFiles_eq_of_perm (l1 l2 : List PFile) (hp : List.Perm l1 l2)
    (hn : (l1.map Prod.fst).Nodup) : sortFiles l1 = sortFiles l2 := by
  have hs1 : List.Sorted fileLe (sortFiles l1) :=
    List.sorted_insertionSort fileLe l1
  have hs2 : List.Sorted fileLe (sortFiles l2) :=
    List.sorted_insertionSort fileLe l2
  have hp1 : List.Perm (sortFiles l1) l1 := List.perm_insertionSort fileLe l1
  have hp2 : List.Perm (sortFiles l2) l2 := List.perm_insertionSort fileLe l2
  have hps : List.Perm (sortFiles l1) (sortFiles l2) :=
    hp1.trans (hp.trans hp2.symm)
  have hn1 : ((sortFiles l1).map Prod.fst).Nodup :=
    ((hp1.map Prod.fst).nodup_iff).mpr hn
  have hn2 : ((sortFiles l2).map Prod.fst).Nodup :=
    ((hps.map Prod.fst).nodup_iff).mp hn1
  exact List.eq_of_perm_of_sorted hps
    (sorted_fileLt_of_nodup _ hs1 hn1) (sorted_fileLt_of_nodup _ hs2 hn2)

/-- C9: for fixed multisets of PR and GHI files with pairwise-distinct
paths, the merged table does not depend on the order in which the
filesystem enumerates the files, because both file lists are sorted by
path before folding. -/
theorem C9_merge_order_independent (prF1 prF2 ghiF1 ghiF2 : List PFile)
    (hp : List.Perm prF1 prF2) (hg : List.Perm ghiF1 ghiF2)
    (hpn : (prF1.map Prod.fst).Nodup) (hgn : (ghiF1.map Prod.fst).Nodup) :
    preprocess_data prF1 ghiF1 = preprocess_data prF2 ghiF2 := by
  unfold preprocess_data
  rw [sortFiles_eq_of_perm prF1 prF2 hp hpn,
    sortFiles_eq_of_perm ghiF1 ghiF2 hg hgn]

/-- C9 witness: two PR files enumerated in the two possible orders give
the same merged table. -/
theorem C9_merge_order_independent_witness :
    List.Perm ([((1 : Nat), [Row.mk 3 (some 10)]), (2, [])] : List PFile)
      [(2, []), (1, [Row.mk 3 (some 10)])] ∧
    (([((1 : Nat), [Row.mk 3 (some 10)]), (2, [])] : List PFile).map
      Prod.fst).Nodup ∧
    preprocess_data [((1 : Nat), [Row.mk 3 (some 10)]), (2, [])] [] =
      preprocess_data [(2, []), (1, [Row.mk 3 (some 10)])] [] :=
  ⟨List.Perm.swap _ _ _, by decide,
    C9_merge_order_independent _ _ _ _ (List.Perm.swap _ _ _)
      (List.Perm.refl []) (by decide) (by decide)⟩

/-- C10: processing GHI rows never changes the PR cell associated with
any date, and processing PR rows never changes the GHI cell associated
with any date: each pass writes only its own field. -/
theorem C10_field_frame (st : DataDict) (rows : List Row) (d : Date) :
    prOf (lookupD d (ghiPhase st rows)) = prOf (lookupD d st) ∧
    ghiOf (lookupD d (prPhase st rows)) = ghiOf (lookupD d st) := by
  constructor
  · induction rows using List.reverseRecOn with
    | nil => rfl
    | append_singleton rs r ih =>
        have hsplit : ghiPhase st (rs ++ [r]) =
            setGHI (ghiPhase st rs) r.date r.value := by
          unfold ghiPhase
          rw [List.foldl_append]
          rfl
        rw [hsplit, lookupD_setGHI]
        by_cases hr : r.date = d
        · rw [if_pos hr]
          simpa [prOf] using ih
        · rw [if_neg hr]
          exact ih
  · induction rows using List.reverseRecOn with
    | nil => rfl
    | append_singleton rs r ih =>
        have hsplit : prPhase st (rs ++ [r]) =
            setPR (prPhase st rs) r.date r.value := by
          unfold prPhase
          rw [List.foldl_append]
          rfl
        rw [hsplit, lookupD_setPR]
        by_cases hr : r.date = d
        · rw [if_pos hr]
          simpa [ghiOf] using ih
        · rw [if_neg hr]
          exact ih

/-! ## Render stage statistics (generate_graph, script.py lines 94-169) -/

/-- PR column of the plotted table. -/
def prColumn (st : DataDict) : List (Option ℚ) := st.map (fun p => p.2.pr)

/-- Models pandas Series.mean over a column with missing cells: the mean
of the present values, NaN (none) when no value is present. -/
def seriesMean (l : List (Option ℚ)) : Option ℚ :=
  let vs := l.filterMap id
  if vs = [] then none else some (vs.sum / (vs.length : ℚ))

/-- Models Series.tail(n): the last n entries by position (all of them
when fewer than n exist). -/
def tailN (n : Nat) (l : List (Option ℚ)) : List (Option ℚ) :=
  l.drop (l.length - n)

/-- Models df_plot['PR'].tail(n).mean() (script.py lines 164-168). -/
def lastNAvg (n : Nat) (st : DataDict) : Option ℚ :=
  seriesMean (tailN n (prColumn st))

/-- Models df_plot['PR'].mean() (script.py line 169). -/
def lifetimeAvg (st : DataDict) : Option ℚ := seriesMean (prColumn st)

/-- Models df_plot['PR'].rolling(window=30, min_periods=1).mean() at
position i (script.py line 116): the mean of the present values among
the last at-most-30 entries up to and including position i, NaN (none)
when none of them is present. -/
def movingAvg30 (l : List (Option ℚ)) (i : Nat) : Option ℚ :=
  seriesMean ((l.take (i + 1)).drop (i + 1 - 30))

/-- Shallow embedding of get_ghi_color (script.py lines 119-129): color
classification of an optional GHI value, with the chained conditions of
the source. -/
def get_ghi_color (ghi : Option ℚ) : String :=
  match ghi with
  | none => "#808080"
  | some g =>
      if g < 2 then "#00008B"
      else if 2 ≤ g ∧ g < 4 then "#4169E1"
      else if 4 ≤ g ∧ g < 6 then "#FFA500"
      else "#8B4513"

/-- C7: the GHI color classification sends a present value through the
partition below-2 / [2,4) / [4,6) / 6-or-above, one color per band,
sends missing GHI to a fifth color distinct from all four band colors,
and maps 1.9, 2.0, 3.999, 6.0 to the bands the specification names. -/
theorem C7_ghi_color_bands :
    (∀ g : ℚ, get_ghi_color (some g) =
      if g < 2 then "#00008B"
      else if g < 4 then "#4169E1"
      else if g < 6 then "#FFA500"
      else "#8B4513") ∧
    get_ghi_color none = "#808080" ∧
    (["#808080", "#00008B", "#4169E1", "#FFA500", "#8B4513"] :
      List String).Nodup ∧
    get_ghi_color (some 1.9) = "#00008B" ∧
    get_ghi_color (some 2) = "#4169E1" ∧
    get_ghi_color (some 3.999) = "#4169E1" ∧
    get_ghi_color (some 6) = "#8B4513" := by
  refine ⟨?_, rfl, by decide, by norm_num [get_ghi_color],
    by norm_num [get_ghi_color], by norm_num [get_ghi_color],
    by norm_num [get_ghi_color]⟩
  intro g
  by_cases h1 : g < 2
  · simp [get_ghi_color, h1]
  · by_cases h2 : g < 4
    · have hx : 2 ≤ g ∧ g < 4 := ⟨by linarith, h2⟩
      simp [get_ghi_color, h1, h2, hx]
    · by_cases h3 : g < 6
      · have hx2 : ¬(2 ≤ g ∧ g < 4) := fun hh => h2 hh.2
        have hx3 : 4 ≤ g ∧ g < 6 := ⟨by linarith, h3⟩
        simp [get_ghi_color, h1, h2, h3, hx2, hx3]
      · have hx2 : ¬(2 ≤ g ∧ g < 4) := fun hh => h2 hh.2
        have hx3 : ¬(4 ≤ g ∧ g < 6) := fun hh => h3 hh.2
        simp [get_ghi_color, h1, h2, h3, hx2, hx3]

/-- C6: each trailing average over a window n of 7, 30, 60, 90 or 365 is
the mean of the last n entries of the PR column by position (the tail
window has length min n len, and shrinks to the whole series when fewer
than n points exist, in which case it coincides with the lifetime
average), and the lifetime average is the mean over the whole column. -/
theorem C6_trailing_averages (st : DataDict) (n : Nat)
    (hn : n ∈ ([7, 30, 60, 90, 365] : List Nat)) :
    lastNAvg n st =
      seriesMean ((prColumn st).drop ((prColumn st).length - n)) ∧
    (tailN n (prColumn st)).length = min n (prColumn st).length ∧
    ((prColumn st).length ≤ n → lastNAvg n st = lifetimeAvg st) ∧
    lifetimeAvg st = seriesMean (prColumn st) := by
  refine ⟨rfl, ?_, ?_, rfl⟩
  · unfold tailN
    rw [List.length_drop]
    omega
  · intro hle
    unfold lastNAvg tailN lifetimeAvg
    rw [Nat.sub_eq_zero_of_le hle, List.drop_zero]

/-- C6 witness at a one-row table and window 7. -/
theorem C6_trailing_averages_witness :
    7 ∈ ([7, 30, 60, 90, 365] : List Nat) ∧
    (lastNAvg 7 [(0, DateRecord.mk (some 1) none)] =
      seriesMean ((prColumn [(0, DateRecord.mk (some 1) none)]).drop
        ((prColumn [(0, DateRecord.mk (some 1) none)]).length - 7)) ∧
    (tailN 7 (prColumn [(0, DateRecord.mk (some 1) none)])).length =
      min 7 (prColumn [(0, DateRecord.mk (some 1) none)]).length ∧
    ((prColumn [(0, DateRecord.mk (some 1) none)]).length ≤ 7 →
      lastNAvg 7 [(0, DateRecord.mk (some 1) none)] =
        lifetimeAvg [(0, DateRecord.mk (some 1) none)]) ∧
    lifetimeAvg [(0, DateRecord.mk (some 1) none)] =
      seriesMean (prColumn [(0, DateRecord.mk (some 1) none)])) :=
  ⟨by decide, C6_trailing_averages [(0, DateRecord.mk (some 1) none)] 7 (by decide)⟩

/-- C8: the 30-day trailing moving average at the first position of a
non-empty PR series equals the first PR cell (a window of one, missing
when that cell is missing), and at every position i with fewer than 30
prior samples the window is the whole prefix of the first i+1 entries. -/
theorem C8_moving_average_start (x : Option ℚ) (t : List (Option ℚ))
    (i : Nat) (hi : i < 30) :
    movingAvg30 (x :: t) 0 = x ∧
    movingAvg30 (x :: t) i = seriesMean ((x :: t).take (i + 1)) := by
  constructor
  · unfold movingAvg30
    cases x with
    | none => simp [seriesMean]
    | some v => simp [seriesMean]
  · unfold movingAvg30
    rw [Nat.sub_eq_zero_of_le (by omega : i + 1 ≤ 30), List.drop_zero]

/-- C8 witness at the one-point series [some 5] and position 0. -/
theorem C8_moving_average_start_witness :
    0 < 30 ∧
    (movingAvg30 [some (5 : ℚ)] 0 = some (5 : ℚ) ∧
      movingAvg30 [some (5 : ℚ)] 0 =
        seriesMean ([some (5 : ℚ)].take (0 + 1))) :=
  ⟨by decide, C8_moving_average_start (some 5) [] 0 (by decide)⟩
